import Mathlib

/-!
Shallow embedding of the CHIP-8 interpreter core (files `src/bus.rs` and
`src/cpu.rs` of the repository) together with proofs settling the frozen
claims about it.

Machine integers are modelled as `Nat` with explicit `% 256` (u8) and
`% 2048` (framebuffer index) where the source wraps.  Rust operations that
can panic (array indexing with a runtime index, `Vec::pop().unwrap()`,
checked `u8` subtraction, slice copies) are modelled as `Option`-valued
functions returning `none` exactly where the source panics.
-/

namespace Chip8

/-- Plane width in cells, `const WIDTH: u32 = 64` in cpu.rs. -/
def WIDTH : Nat := 64

/-- Plane height in cells, `const HEIGHT: u32 = 32` in cpu.rs. -/
def HEIGHT : Nat := 32

/-- Pointwise update of a function modelling a mutable array slot write. -/
def upd (f : Nat → Nat) (i v : Nat) : Nat → Nat :=
  fun j => if j = i then v else f j

@[simp] lemma upd_same (f : Nat → Nat) (i v : Nat) : upd f i v i = v := by
  simp [upd]

@[simp] lemma upd_other (f : Nat → Nat) (i v j : Nat) (h : j ≠ i) :
    upd f i v j = f j := by
  simp [upd, h]

/-- The signal channel of `src/bus.rs`: `signals: Vec<(u8, u8)>`.
`Vec::push` appends at the end of the list. -/
structure Bus where
  signals : List (Nat × Nat)
deriving DecidableEq, Repr

/-- `Bus::new` in bus.rs. -/
def Bus.new : Bus := ⟨[]⟩

/-- `Bus::send` in bus.rs: `self.signals.push((d1, d2))`. -/
def Bus.send (b : Bus) (d1 d2 : Nat) : Bus := ⟨b.signals ++ [(d1, d2)]⟩

/-- `Bus::read` in bus.rs: `self.signals.pop()` removes and returns the last
pushed pair, defaulting to `(0, 0)` when the vector is empty.  The returned
`Bus` is the post-state. -/
def Bus.read (b : Bus) : (Nat × Nat) × Bus :=
  match b.signals.getLast? with
  | some s => (s, ⟨b.signals.dropLast⟩)
  | none => ((0, 0), b)

/-- Interpreter state of `struct CPU` in cpu.rs.  Fixed-size `u8` arrays are
modelled as total functions from index to value; all reads the source can
perform are guarded by the `Option` results of the operations below at the
indices where the source could panic.  `bus` models `buses[0]`, the keypad
bus (`buses[1]` is never read or written by the source).  Timer fields and
their wall-clock timestamps are not modelled; no claim mentions them. -/
structure CPU where
  bus : Bus
  keyRegisters : Nat → Nat
  registers : Nat → Nat
  memory : Nat → Nat
  pc : Nat
  pointer : Nat
  display : Nat → Nat
  stack : List Nat

/-- `read_keypad_bus` in cpu.rs (lines 137-142): drain one signal from the
keypad bus; `(0,0)` means no event, anything else writes
`key_registers[key] = value`.  `key_registers` is `[u8; 0x9]`, so a key of 9
or more indexes out of bounds and panics, modelled as `none`. -/
def read_keypad_bus (c : CPU) : Option CPU :=
  let r := c.bus.read
  match r.1 with
  | (0, 0) => some { c with bus := r.2 }
  | (key, value) =>
      if key < 9 then
        some { c with bus := r.2, keyRegisters := upd c.keyRegisters key value }
      else none

/-- `skip_if_key_pressed` in cpu.rs (opcode Ex9E): skip the next instruction
when `key_registers[registers[x]] == 1`.  The table lookup panics when the
register value is 9 or more, modelled as `none`. -/
def skip_if_key_pressed (c : CPU) (x : Nat) : Option CPU :=
  let expected_key := c.registers x
  if expected_key < 9 then
    some (if c.keyRegisters expected_key = 1 then { c with pc := c.pc + 2 } else c)
  else none

/-- `skip_if_key_not_pressed` in cpu.rs (opcode ExA1): skip when
`key_registers[registers[x]] == 0`, same out-of-bounds behaviour. -/
def skip_if_key_not_pressed (c : CPU) (x : Nat) : Option CPU :=
  let expected_key := c.registers x
  if expected_key < 9 then
    some (if c.keyRegisters expected_key = 0 then { c with pc := c.pc + 2 } else c)
  else none

/-- `wait_for_key_press` in cpu.rs (opcode Fx0A): scan keys 0..9 in order;
on the first slot holding 1, store that slot's VALUE (`key_registers[key]`,
not the key index) into register x and return; otherwise rewind the program
counter by 2.  The handler runs after `cycle` advanced `pc` by 2, so the
`Nat` subtraction agrees with the source's `u16` subtraction. -/
def wait_for_key_press (c : CPU) (x : Nat) : CPU :=
  match (List.range 9).find? (fun key => c.keyRegisters key == 1) with
  | some key => { c with registers := upd c.registers x (c.keyRegisters key) }
  | none => { c with pc := c.pc - 2 }

/-- `store_bcd_in_memory` in cpu.rs (opcode Fx33): the source builds
`bcd = [((v - v%100)/100) % 100, ((v - v%10)/10) % 10, v % 10]` and copies it
to `memory[pointer..pointer+3]`; the slice copy panics when `pointer + 3`
exceeds 4096, modelled as `none`. -/
def store_bcd_in_memory (c : CPU) (x : Nat) : Option CPU :=
  let v := c.registers x
  let bcd0 := ((v - v % 100) / 100) % 100
  let bcd1 := ((v - v % 10) / 10) % 10
  let bcd2 := v % 10
  if c.pointer + 3 ≤ 4096 then
    some { c with memory := fun j =>
      if j = c.pointer then bcd0
      else if j = c.pointer + 1 then bcd1
      else if j = c.pointer + 2 then bcd2
      else c.memory j }
  else none

/-- `add_register_y_to_register_x` in cpu.rs (opcode 8xy4):
`overflowing_add` on u8, then the flag register 15 is written (1 on carry,
0 otherwise) before the wrapped sum is stored in register x.  For register
values below 256 the `Nat` expressions agree with u8 `overflowing_add`. -/
def add_register_y_to_register_x (c : CPU) (x y : Nat) : CPU :=
  let v := (c.registers x + c.registers y) % 256
  let carry := 256 ≤ c.registers x + c.registers y
  let r1 := upd c.registers 0xF (if carry then 1 else 0)
  { c with registers := upd r1 x v }

/-- `sub_register_y_to_register_x` in cpu.rs (opcode 8xy5):
`overflowing_sub` on u8, flag register 15 written (1 on borrow, 0 otherwise)
before the wrapped difference is stored.  For register values below 256 the
`Nat` expressions agree with u8 `overflowing_sub`. -/
def sub_register_y_to_register_x (c : CPU) (x y : Nat) : CPU :=
  let v := (c.registers x + 256 - c.registers y) % 256
  let borrow := c.registers x < c.registers y
  let r1 := upd c.registers 0xF (if borrow then 1 else 0)
  { c with registers := upd r1 x v }

/-- `store_shift_register_x_least` in cpu.rs (opcode 8xy6): the source
computes `let least_significant_bit = self.registers[x] & 0x0F;` (the low
NIBBLE, despite the variable name), stores it in the flag register 15, then
shifts register x right by one. -/
def store_shift_register_x_least (c : CPU) (x : Nat) : CPU :=
  let least_significant_bit := c.registers x &&& 0x0F
  let r1 := upd c.registers 0xF least_significant_bit
  { c with registers := upd r1 x (r1 x / 2) }

/-- `store_shift_register_x_most` in cpu.rs (opcode 8xyE): flag register 15
receives `(registers[x] >> 7) & 1`, then register x is shifted left by one;
the u8 left shift discards the high bit, modelled as `* 2 % 256`. -/
def store_shift_register_x_most (c : CPU) (x : Nat) : CPU :=
  let most_significant_bit := (c.registers x / 128) &&& 1
  let r1 := upd c.registers 0xF most_significant_bit
  { c with registers := upd r1 x (r1 x * 2 % 256) }

/-- `diff_register_y_and_register_x` in cpu.rs (opcode 8xy7): the source
computes `self.registers[y] - register_x_value` with the bare u8 `-`
operator, which panics on underflow when overflow checks are enabled (the
default debug profile); that panic is modelled as `none`.  The flag register
is not touched. -/
def diff_register_y_and_register_x (c : CPU) (x y : Nat) : Option CPU :=
  if c.registers x ≤ c.registers y then
    some { c with registers := upd c.registers x (c.registers y - c.registers x) }
  else none

/-- `return_from_subroutine` in cpu.rs (opcode 00EE):
`self.pc = self.stack.pop().unwrap()`; the `unwrap` on an empty stack panics,
modelled as `none`.  `Vec::pop` removes the last pushed element. -/
def return_from_subroutine (c : CPU) : Option CPU :=
  match c.stack.getLast? with
  | some a => some { c with pc := a, stack := c.stack.dropLast }
  | none => none

/-- `call_subroutine` in cpu.rs (opcode 2nnn), address already assembled:
push the advanced program counter, jump to the address. -/
def call_subroutine (c : CPU) (address : Nat) : CPU :=
  { c with stack := c.stack ++ [c.pc], pc := address }

/-- Intermediate state of the `draw_sprite` loops: the display cells together
with the value accumulated for the flag register 15 (reset to 0 at entry). -/
structure DrawState where
  display : Nat → Nat
  flag : Nat

/-- Test of `pixel & (0x80 >> x_line) != 0` in `draw_sprite`, where `pixel`
is the sprite row byte `memory[pointer + y_line]`.  The pair `p` is
`(y_line, x_line)`. -/
def bitSet (c : CPU) (p : Nat × Nat) : Bool :=
  c.memory (c.pointer + p.1) &&& (0x80 >>> p.2) != 0

/-- The framebuffer index computed by `draw_sprite`:
`(x + x_line + ((y + y_line) * WIDTH)) % (WIDTH * HEIGHT)` — a LINEAR
row-major index reduced modulo the whole 2048-cell plane, not per-axis. -/
def toggleIdx (x y : Nat) (p : Nat × Nat) : Nat :=
  (x + p.2 + (y + p.1) * WIDTH) % (WIDTH * HEIGHT)

/-- Body of the inner loop of `draw_sprite` for the sprite position
`p = (y_line, x_line)`: if the sprite bit is set, record a collision in the
flag when the cell currently reads 1, then XOR-toggle the cell. -/
def drawStep (c : CPU) (x y : Nat) (s : DrawState) (p : Nat × Nat) : DrawState :=
  if bitSet c p then
    let index := toggleIdx x y p
    { display := upd s.display index (s.display index ^^^ 1),
      flag := if s.display index = 1 then 1 else s.flag }
  else s

/-- Iteration order of the two nested loops of `draw_sprite`:
`y_line` in `0..height` outer, `x_line` in `0..8` inner. -/
def drawPairs (n : Nat) : List (Nat × Nat) :=
  (List.range n).flatMap (fun dy => (List.range 8).map (fun dx => (dy, dx)))

/-- Run of the two nested loops of `draw_sprite` over the whole sprite:
`x` and `y` are the values of registers `rx` and `ry` read at entry, the
flag accumulator starts at 0 (the source's `self.registers[0xF] = 0`). -/
def drawRun (c : CPU) (rx ry n : Nat) : DrawState :=
  (drawPairs n).foldl (drawStep c (c.registers rx) (c.registers ry))
    { display := c.display, flag := 0 }

/-- Post-state of a successful `draw_sprite`: the toggled display and the
accumulated collision flag written to register 15. -/
def drawResult (c : CPU) (rx ry n : Nat) : CPU :=
  { c with display := (drawRun c rx ry n).display,
           registers := upd c.registers 0xF (drawRun c rx ry n).flag }

/-- `draw_sprite` in cpu.rs (lines 351-374, opcode Dxyn): the flag register
15 is reset to 0, then each row byte `memory[pointer + y_line]` is read and
its set bits toggle the display as in `drawStep`.  The row-byte read panics
when its index reaches 4096; the guard returns `none` exactly when some
iterated `y_line` would read out of bounds (no read happens for `n = 0`).
Display indices are reduced `% 2048` by the source and are always in
range. -/
def draw_sprite (c : CPU) (rx ry n : Nat) : Option CPU :=
  if n = 0 ∨ c.pointer + n ≤ 4096 then some (drawResult c rx ry n) else none

/-- Modelled from the spec side of claim C1 ONLY (for comparison against the
source's `draw_sprite`, never used to settle other claims): per-axis
wraparound, toggling the cell at column `(x + x_line) % WIDTH` and row
`(y + y_line) % HEIGHT`. -/
def axisSpecStep (c : CPU) (x y : Nat) (s : DrawState) (p : Nat × Nat) : DrawState :=
  if bitSet c p then
    let index := (x + p.2) % WIDTH + ((y + p.1) % HEIGHT) * WIDTH
    { display := upd s.display index (s.display index ^^^ 1),
      flag := if s.display index = 1 then 1 else s.flag }
  else s

/-- Modelled from the spec side of claim C1 ONLY: the draw operation with
per-axis coordinate wraparound instead of the source's linear wraparound. -/
def draw_sprite_axis_spec (c : CPU) (rx ry n : Nat) : Option CPU :=
  let x := c.registers rx
  let y := c.registers ry
  if n = 0 ∨ c.pointer + n ≤ 4096 then
    let s := (drawPairs n).foldl (axisSpecStep c x y) { display := c.display, flag := 0 }
    some { c with display := s.display, registers := upd c.registers 0xF s.flag }
  else none

/-! Helper lemmas about the draw loops. -/

lemma mem_drawPairs {n : Nat} {p : Nat × Nat} :
    p ∈ drawPairs n ↔ p.1 < n ∧ p.2 < 8 := by
  obtain ⟨dy, dx⟩ := p
  simp only [drawPairs, List.mem_flatMap, List.mem_map, List.mem_range]
  constructor
  · rintro ⟨a, ha, b, hb, h⟩
    cases h
    exact ⟨ha, hb⟩
  · rintro ⟨h1, h2⟩
    exact ⟨dy, h1, dx, h2, rfl⟩

lemma drawPairs_nodup (n : Nat) : (drawPairs n).Nodup := by
  refine List.nodup_flatMap.2 ⟨?_, ?_⟩
  · intro dy _
    exact (List.nodup_range 8).map (fun a b h => by simpa using h)
  · refine (List.nodup_range n).pairwise_of_forall_ne ?_
    intro a _ b _ hab
    intro p hp hq
    rcases List.mem_map.1 hp with ⟨dx, _, rfl⟩
    rcases List.mem_map.1 hq with ⟨dx2, _, h⟩
    exact hab (congrArg Prod.fst h.symm)

lemma toggleIdx_inj {x y : Nat} {p q : Nat × Nat}
    (hp1 : p.1 < 32) (hq1 : q.1 < 32) (hp2 : p.2 < 8) (hq2 : q.2 < 8)
    (h : toggleIdx x y p = toggleIdx x y q) : p = q := by
  obtain ⟨dy1, dx1⟩ := p
  obtain ⟨dy2, dx2⟩ := q
  simp only [toggleIdx, WIDTH, HEIGHT] at h
  simp only at hp1 hq1 hp2 hq2
  simp only [Prod.mk.injEq]
  omega

lemma drawPairs_pairwise_idx (x y : Nat) {n : Nat} (hn : n ≤ 32) :
    (drawPairs n).Pairwise (fun p q => toggleIdx x y p ≠ toggleIdx x y q) := by
  refine (drawPairs_nodup n).pairwise_of_forall_ne ?_
  intro p hp q hq hne h
  rcases mem_drawPairs.1 hp with ⟨hp1, hp2⟩
  rcases mem_drawPairs.1 hq with ⟨hq1, hq2⟩
  exact hne (toggleIdx_inj (lt_of_lt_of_le hp1 hn) (lt_of_lt_of_le hq1 hn) hp2 hq2 h)

/-- Cells whose index is hit by no set sprite bit are left unchanged by the
draw loops. -/
lemma foldl_drawStep_display_miss (c : CPU) (x y : Nat) :
    ∀ (L : List (Nat × Nat)) (s : DrawState) (i : Nat),
      (∀ p ∈ L, bitSet c p → toggleIdx x y p ≠ i) →
      (L.foldl (drawStep c x y) s).display i = s.display i := by
  intro L
  induction L with
  | nil => intro s i _; rfl
  | cons p L ih =>
    intro s i hmiss
    rw [List.foldl_cons]
    by_cases hb : bitSet c p
    · have hne : toggleIdx x y p ≠ i := hmiss p (List.mem_cons_self p L) hb
      have h1 : (drawStep c x y s p).display i = s.display i := by
        simp [drawStep, hb, upd_other _ _ _ _ (fun h => hne h.symm)]
      rw [ih _ i (fun q hq hbq => hmiss q (List.mem_cons_of_mem p hq) hbq), h1]
    · rw [show drawStep c x y s p = s by simp [drawStep, hb]]
      exact ih _ i (fun q hq hbq => hmiss q (List.mem_cons_of_mem p hq) hbq)

/-- Each set sprite bit XOR-toggles the cell at its computed index, provided
the indices of the processed positions are pairwise distinct. -/
lemma foldl_drawStep_display_hit (c : CPU) (x y : Nat) :
    ∀ (L : List (Nat × Nat)) (s : DrawState),
      L.Pairwise (fun p q => toggleIdx x y p ≠ toggleIdx x y q) →
      ∀ p ∈ L, bitSet c p →
        (L.foldl (drawStep c x y) s).display (toggleIdx x y p) =
          s.display (toggleIdx x y p) ^^^ 1 := by
  intro L
  induction L with
  | nil => intro s _ p hp; cases hp
  | cons q L ih =>
    intro s hpw p hp hb
    rw [List.pairwise_cons] at hpw
    obtain ⟨hhead, htail⟩ := hpw
    rw [List.foldl_cons]
    rcases List.mem_cons.1 hp with rfl | hpL
    · have h1 : (drawStep c x y s p).display (toggleIdx x y p) =
          s.display (toggleIdx x y p) ^^^ 1 := by
        simp [drawStep, hb]
      rw [foldl_drawStep_display_miss c x y L _ _
        (fun r hr _ => (hhead r hr).symm), h1]
    · by_cases hbq : bitSet c q
      · have h1 : (drawStep c x y s q).display (toggleIdx x y p) =
            s.display (toggleIdx x y p) := by
          simp [drawStep, hbq,
            upd_other _ _ _ _ (fun h => hhead p hpL h.symm)]
        rw [ih _ htail p hpL hb, h1]
      · rw [show drawStep c x y s q = s by simp [drawStep, hbq]]
        exact ih _ htail p hpL hb

/-- Flag accumulation of the draw loops: the final flag reads 1 exactly when
some set sprite bit found its cell already reading 1 in the start state, or
the flag was already 1 — provided the indices are pairwise distinct. -/
lemma foldl_drawStep_flag (c : CPU) (x y : Nat) :
    ∀ (L : List (Nat × Nat)) (s : DrawState),
      L.Pairwise (fun p q => toggleIdx x y p ≠ toggleIdx x y q) →
      ((L.foldl (drawStep c x y) s).flag = 1 ↔
        (∃ p ∈ L, bitSet c p ∧ s.display (toggleIdx x y p) = 1) ∨ s.flag = 1) := by
  intro L
  induction L with
  | nil => intro s _; simp
  | cons q L ih =>
    intro s hpw
    rw [List.pairwise_cons] at hpw
    obtain ⟨hhead, htail⟩ := hpw
    rw [List.foldl_cons]
    by_cases hbq : bitSet c q
    · have hstep : drawStep c x y s q =
          { display := upd s.display (toggleIdx x y q)
              (s.display (toggleIdx x y q) ^^^ 1),
            flag := if s.display (toggleIdx x y q) = 1 then 1 else s.flag } := by
        simp [drawStep, hbq]
      rw [hstep, ih _ htail]
      constructor
      · rintro (⟨p, hpL, hbp, hdp⟩ | hflag)
        · dsimp only at hdp
          rw [upd_other _ _ _ _ (fun h => hhead p hpL h.symm)] at hdp
          exact Or.inl ⟨p, List.mem_cons_of_mem q hpL, hbp, hdp⟩
        · dsimp only at hflag
          by_cases hq1 : s.display (toggleIdx x y q) = 1
          · exact Or.inl ⟨q, List.mem_cons_self q L, hbq, hq1⟩
          · rw [if_neg hq1] at hflag
            exact Or.inr hflag
      · rintro (⟨p, hpc, hbp, hdp⟩ | hflag)
        · rcases List.mem_cons.1 hpc with rfl | hpL
          · refine Or.inr ?_
            dsimp only
            rw [if_pos hdp]
          · refine Or.inl ⟨p, hpL, hbp, ?_⟩
            dsimp only
            rw [upd_other _ _ _ _ (fun h => hhead p hpL h.symm)]
            exact hdp
        · refine Or.inr ?_
          dsimp only
          by_cases hq1 : s.display (toggleIdx x y q) = 1
          · rw [if_pos hq1]
          · rw [if_neg hq1]; exact hflag
    · rw [show drawStep c x y s q = s by simp [drawStep, hbq], ih _ htail]
      constructor
      · rintro (⟨p, hpL, h⟩ | hflag)
        · exact Or.inl ⟨p, List.mem_cons_of_mem q hpL, h⟩
        · exact Or.inr hflag
      · rintro (⟨p, hpc, hbp, hdp⟩ | hflag)
        · rcases List.mem_cons.1 hpc with rfl | hpL
          · exact absurd hbp (by simpa using hbq)
          · exact Or.inl ⟨p, hpL, hbp, hdp⟩
        · exact Or.inr hflag

/-- A successful draw (in-bounds sprite rows) returns `drawResult`. -/
lemma draw_sprite_pos (c : CPU) (rx ry n : Nat)
    (h : n = 0 ∨ c.pointer + n ≤ 4096) :
    draw_sprite c rx ry n = some (drawResult c rx ry n) := by
  unfold draw_sprite
  rw [if_pos h]

/-- The draw loops do not touch memory or the index pointer, so the sprite
bits read by a second identical draw are unchanged. -/
lemma bitSet_drawResult (c : CPU) (rx ry n : Nat) :
    bitSet (drawResult c rx ry n) = bitSet c := rfl

/-- Registers other than the flag register 15 are untouched by a draw. -/
lemma drawResult_registers (c : CPU) (rx ry n j : Nat) (hj : j ≠ 15) :
    (drawResult c rx ry n).registers j = c.registers j :=
  upd_other _ _ _ _ hj

/-- Display characterization of a draw with a sprite of at most 16 rows:
a cell is XOR-toggled exactly when some set sprite bit maps to its index. -/
lemma drawResult_display (c : CPU) (rx ry n : Nat) (hn : n < 16) (i : Nat) :
    (drawResult c rx ry n).display i =
      if ∃ p ∈ drawPairs n, bitSet c p = true ∧
          toggleIdx (c.registers rx) (c.registers ry) p = i
      then c.display i ^^^ 1 else c.display i := by
  by_cases hhit : ∃ p ∈ drawPairs n, bitSet c p = true ∧
      toggleIdx (c.registers rx) (c.registers ry) p = i
  · rw [if_pos hhit]
    obtain ⟨p, hp, hbp, hip⟩ := hhit
    subst hip
    exact foldl_drawStep_display_hit c (c.registers rx) (c.registers ry)
      (drawPairs n) { display := c.display, flag := 0 }
      (drawPairs_pairwise_idx _ _ (by omega)) p hp hbp
  · rw [if_neg hhit]
    exact foldl_drawStep_display_miss c (c.registers rx) (c.registers ry)
      (drawPairs n) { display := c.display, flag := 0 } i
      (fun p hp hbp hip => hhit ⟨p, hp, hbp, hip⟩)

/-- Flag characterization of a draw with a sprite of at most 16 rows: the
flag register 15 ends at 1 exactly when some set sprite bit mapped to a cell
that read 1 before the draw. -/
lemma drawResult_flag (c : CPU) (rx ry n : Nat) (hn : n < 16) :
    (drawResult c rx ry n).registers 15 = 1 ↔
      ∃ p ∈ drawPairs n, bitSet c p = true ∧
        c.display (toggleIdx (c.registers rx) (c.registers ry) p) = 1 := by
  have h := foldl_drawStep_flag c (c.registers rx) (c.registers ry)
    (drawPairs n) { display := c.display, flag := 0 }
    (drawPairs_pairwise_idx _ _ (by omega))
  have h15 : (drawResult c rx ry n).registers 15 = (drawRun c rx ry n).flag := by
    simp [drawResult]
  rw [h15]
  refine h.trans ?_
  constructor
  · rintro (hex | h01)
    · exact hex
    · simp at h01
  · exact Or.inl

/-- XOR-toggle inversion on a cell value. -/
lemma xor_one_eq_one_iff (v : Nat) : v ^^^ 1 = 1 ↔ v = 0 := by
  constructor
  · intro h
    have h2 : (v ^^^ 1) ^^^ 1 = 1 ^^^ 1 := by rw [h]
    simpa [Nat.xor_assoc] using h2
  · intro h
    subst h
    rfl

/-- Zeroed interpreter state as produced by `CPU::new` (timers aside), used
as the base of the concrete states below. -/
def baseCPU : CPU :=
  { bus := Bus.new
    keyRegisters := fun _ => 0
    registers := fun _ => 0
    memory := fun _ => 0
    pc := 0x200
    pointer := 0
    display := fun _ => 0
    stack := [] }

/-- Popping a freshly pushed signal returns it and restores the rest. -/
lemma Bus.read_push (s : List (Nat × Nat)) (p : Nat × Nat) :
    Bus.read ⟨s ++ [p]⟩ = (p, ⟨s⟩) := by
  simp [Bus.read]

/-- State with register 2 holding 3 for the shift-right evaluation. -/
def cpuC2 : CPU := { baseCPU with registers := upd baseCPU.registers 2 3 }

/-- C2: the code contradicts the claim on opcode 8xy6.  With register 2
holding v = 3, the handler stores `v & 0x0F = 3` (the low nibble — despite
its own variable being named `least_significant_bit`) into the flag register
15, whereas the claim demands the least-significant bit `v % 2 = 1`; the
shifted value `v >> 1 = 1` itself is stored as claimed. -/
theorem C2_shift_right_flag_gets_low_nibble :
    (store_shift_register_x_least cpuC2 2).registers 15 = 3 ∧
    (3 : Nat) % 2 = 1 ∧ (3 : Nat) ≠ 1 ∧
    (store_shift_register_x_least cpuC2 2).registers 2 = 1 ∧
    (store_shift_register_x_most cpuC2 2).registers 15 = 0 ∧
    (store_shift_register_x_most cpuC2 2).registers 2 = 6 := by
  refine ⟨rfl, rfl, by decide, rfl, rfl, rfl⟩

/-- Channel state after two consecutive sends. -/
def busC3 : Bus := (Bus.new.send 1 1).send 2 1

/-- C3 counterexample: after two consecutive sends the channel holds TWO
pending pairs; the first read returns the second pair as claimed, but the
next read returns the first pair (1, 1), not the sentinel (0, 0) — refuting
the single-slot, last-write-wins overwrite behaviour. -/
theorem C3_counterexample_two_sends :
    busC3.signals.length = 2 ∧
    busC3.read.1 = (2, 1) ∧
    busC3.read.2.read.1 = (1, 1) ∧
    ((1, 1) : Nat × Nat) ≠ (0, 0) := by decide

/-- C3 (amended): the signal channel is an unbounded last-in-first-out stack,
not a single-slot mailbox.  A send pushes its pair without overwriting
anything, a read removes and returns the most recently sent pending pair
(`(0, 0)` when the channel is empty), and after two consecutive sends the
first read returns the second pair while the next read returns the first
pair. -/
theorem C3_amended_lifo_stack (b : Bus) (d1 d2 e1 e2 : Nat) :
    Bus.new.read = ((0, 0), Bus.new) ∧
    (b.send d1 d2).signals = b.signals ++ [(d1, d2)] ∧
    (b.send d1 d2).read = ((d1, d2), b) ∧
    ((b.send d1 d2).send e1 e2).read = ((e1, e2), b.send d1 d2) ∧
    ((b.send d1 d2).send e1 e2).read.2.read = ((d1, d2), b) := by
  refine ⟨rfl, rfl, Bus.read_push _ _, Bus.read_push _ _, ?_⟩
  rw [show ((b.send d1 d2).send e1 e2).read.2 = b.send d1 d2 from
    congrArg Prod.snd (Bus.read_push _ _)]
  exact Bus.read_push _ _

/-- State with exactly logical key 3 pressed. -/
def cpuC4 : CPU := { baseCPU with keyRegisters := upd baseCPU.keyRegisters 3 1 }

/-- State with the program counter already advanced past an Fx0A opcode. -/
def cpuC4b : CPU := { baseCPU with pc := 0x202 }

/-- C4: the code contradicts the claim on opcode Fx0A.  With exactly key 3
pressed, the handler stores `key_registers[key]` — the pressed-state value 1
— into register 0 instead of the key identifier 3 (and leaves the already
advanced program counter alone); with no key pressed it rewinds the program
counter by 2 and leaves the registers unchanged, as claimed. -/
theorem C4_wait_for_key_stores_state_not_id :
    (wait_for_key_press cpuC4 0).registers 0 = 1 ∧
    (1 : Nat) ≠ 3 ∧
    (wait_for_key_press cpuC4 0).pc = cpuC4.pc ∧
    (wait_for_key_press cpuC4b 0).pc = 0x200 ∧
    (wait_for_key_press cpuC4b 0).registers 0 = 0 := by
  refine ⟨rfl, by decide, rfl, rfl, rfl⟩

/-- State with register 2 holding a = 1 and register 3 holding b = 0, the
underflowing reverse-subtract input; register 4 holds 5 for the in-range
check. -/
def cpuC5 : CPU :=
  { baseCPU with registers := upd (upd baseCPU.registers 2 1) 4 5 }

/-- C5: the code contradicts the claim on opcode 8xy7.  The source computes
`self.registers[y] - register_x_value` with the bare u8 `-`, which panics on
underflow under the default (checked) build profile — modelled as `none` at
a = 1, b = 0 — instead of wrapping to 255 as the claim requires.  When no
underflow occurs (a = 1 ≤ b = 5) the difference is stored and the flag
register 15 is left unchanged, as claimed. -/
theorem C5_reverse_subtract_underflow_traps :
    diff_register_y_and_register_x cpuC5 2 3 = none ∧
    ((diff_register_y_and_register_x cpuC5 2 4).map
      (fun c => (c.registers 2, c.registers 15))) = some (4, 0) := by
  refine ⟨rfl, rfl⟩

/-- State with register 15 holding 200 and register 0 holding 100. -/
def cpuC6 : CPU :=
  { baseCPU with registers := fun i => if i = 15 then 200 else if i = 0 then 100 else 0 }

/-- C6 counterexample: take x = 15 (the flag register itself) with a = 200
in register 15 and b = 100 in register 0.  The claim demands that 8xy4 set
the flag register to 1 (since a + b = 300 > 255); the code first writes the
carry flag but then overwrites register 15 with the wrapped sum 44, so the
flag register ends at 44, not 1. -/
theorem C6_counterexample_flag_clobbered_when_x_is_15 :
    (add_register_y_to_register_x cpuC6 15 0).registers 15 = 44 ∧
    (44 : Nat) ≠ 1 ∧ 255 < 200 + 100 := by
  refine ⟨rfl, by decide, by decide⟩

/-- State with register 0 holding 200 and register 1 holding 100. -/
def cpuC6w : CPU :=
  { baseCPU with registers := fun i => if i = 0 then 200 else if i = 1 then 100 else 0 }

/-- C6 (amended): for every destination register x OTHER than the flag
register 15 and all 8-bit values a (register x) and b (register y): 8xy4
stores (a + b) mod 256 in register x and sets the flag register 15 to 1 if
a + b > 255 and to 0 otherwise; 8xy5 stores the wrapping difference
(a + 256 - b) mod 256 in register x and sets the flag register to 1 if
a < b and to 0 otherwise; both flag writes overwrite the previous flag
unconditionally, and no other register changes.  (When x = 15 the wrapped
result overwrites the freshly written flag, as the counterexample shows.) -/
theorem C6_amended_add_sub_carry_borrow (c : CPU) (x y : Nat)
    (hx : x ≠ 15) (ha : c.registers x < 256) (hb : c.registers y < 256) :
    ((add_register_y_to_register_x c x y).registers x =
        (c.registers x + c.registers y) % 256 ∧
      (add_register_y_to_register_x c x y).registers 15 =
        (if 255 < c.registers x + c.registers y then 1 else 0) ∧
      (∀ j, j ≠ x → j ≠ 15 →
        (add_register_y_to_register_x c x y).registers j = c.registers j)) ∧
    ((sub_register_y_to_register_x c x y).registers x =
        (c.registers x + 256 - c.registers y) % 256 ∧
      (sub_register_y_to_register_x c x y).registers 15 =
        (if c.registers x < c.registers y then 1 else 0) ∧
      (∀ j, j ≠ x → j ≠ 15 →
        (sub_register_y_to_register_x c x y).registers j = c.registers j)) := by
  refine ⟨⟨?_, ?_, ?_⟩, ⟨?_, ?_, ?_⟩⟩
  · simp [add_register_y_to_register_x]
  · simp only [add_register_y_to_register_x]
    rw [upd_other _ _ _ _ (fun h => hx h.symm), upd_same]
    split_ifs <;> omega
  · intro j hjx hj15
    simp only [add_register_y_to_register_x]
    rw [upd_other _ _ _ _ hjx, upd_other _ _ _ _ hj15]
  · simp [sub_register_y_to_register_x]
  · simp only [sub_register_y_to_register_x]
    rw [upd_other _ _ _ _ (fun h => hx h.symm), upd_same]
  · intro j hjx hj15
    simp only [sub_register_y_to_register_x]
    rw [upd_other _ _ _ _ hjx, upd_other _ _ _ _ hj15]

/-- C6 witness: the amended theorem applied at registers a = 200, b = 100
with destination register 0. -/
theorem C6_amended_witness :
    ((add_register_y_to_register_x cpuC6w 0 1).registers 0 =
        (cpuC6w.registers 0 + cpuC6w.registers 1) % 256 ∧
      (add_register_y_to_register_x cpuC6w 0 1).registers 15 =
        (if 255 < cpuC6w.registers 0 + cpuC6w.registers 1 then 1 else 0) ∧
      (∀ j, j ≠ 0 → j ≠ 15 →
        (add_register_y_to_register_x cpuC6w 0 1).registers j = cpuC6w.registers j)) ∧
    ((sub_register_y_to_register_x cpuC6w 0 1).registers 0 =
        (cpuC6w.registers 0 + 256 - cpuC6w.registers 1) % 256 ∧
      (sub_register_y_to_register_x cpuC6w 0 1).registers 15 =
        (if cpuC6w.registers 0 < cpuC6w.registers 1 then 1 else 0) ∧
      (∀ j, j ≠ 0 → j ≠ 15 →
        (sub_register_y_to_register_x cpuC6w 0 1).registers j = cpuC6w.registers j)) :=
  C6_amended_add_sub_carry_borrow cpuC6w 0 1 (by decide) (by decide) (by decide)

/-- C7: opcode Fx33 writes exactly the three decimal digits of the 8-bit
value v in register x — most-significant first, zero-padded — to memory at
the index pointer, pointer + 1 and pointer + 2, and changes no other memory
byte. -/
theorem C7_bcd_three_digits (c : CPU) (x : Nat)
    (hv : c.registers x < 256) (hp : c.pointer + 3 ≤ 4096) :
    ∃ c2, store_bcd_in_memory c x = some c2 ∧
      c2.memory c.pointer = c.registers x / 100 ∧
      c2.memory (c.pointer + 1) = c.registers x / 10 % 10 ∧
      c2.memory (c.pointer + 2) = c.registers x % 10 ∧
      (∀ j, j ≠ c.pointer → j ≠ c.pointer + 1 → j ≠ c.pointer + 2 →
        c2.memory j = c.memory j) := by
  have hs : store_bcd_in_memory c x = some { c with memory := fun j =>
      (if j = c.pointer then ((c.registers x - c.registers x % 100) / 100) % 100
      else if j = c.pointer + 1 then ((c.registers x - c.registers x % 10) / 10) % 10
      else if j = c.pointer + 2 then c.registers x % 10
      else c.memory j) } := by
    simp only [store_bcd_in_memory]
    rw [if_pos hp]
  refine ⟨_, hs, ?_, ?_, ?_, ?_⟩
  · dsimp only
    rw [if_pos rfl]
    omega
  · dsimp only
    rw [if_neg (by omega), if_pos rfl]
    omega
  · dsimp only
    rw [if_neg (by omega), if_neg (by omega), if_pos rfl]
  · intro j h0 h1 h2
    dsimp only
    rw [if_neg h0, if_neg h1, if_neg h2]

/-- State with register 0 holding 255 and the index pointer at 0x300. -/
def cpuC7w : CPU :=
  { baseCPU with registers := upd baseCPU.registers 0 255, pointer := 0x300 }

/-- C7 witness: Fx33 on value 255 writes the bytes 2, 5, 5. -/
theorem C7_bcd_witness :
    ∃ c2, store_bcd_in_memory cpuC7w 0 = some c2 ∧
      c2.memory cpuC7w.pointer = cpuC7w.registers 0 / 100 ∧
      c2.memory (cpuC7w.pointer + 1) = cpuC7w.registers 0 / 10 % 10 ∧
      c2.memory (cpuC7w.pointer + 2) = cpuC7w.registers 0 % 10 ∧
      (∀ j, j ≠ cpuC7w.pointer → j ≠ cpuC7w.pointer + 1 →
        j ≠ cpuC7w.pointer + 2 → c2.memory j = cpuC7w.memory j) :=
  C7_bcd_three_digits cpuC7w 0 (by decide) (by decide)

/-- C8: opcode 00EE with an empty call stack is fatal — the handler yields
`none` (the source's `unwrap` panic, which propagates to the caller of
`cycle`), never a silently defaulted program counter; with a non-empty
stack it pops the most recently pushed return address into the program
counter. -/
theorem C8_return_from_subroutine (c : CPU) :
    (c.stack = [] → return_from_subroutine c = none) ∧
    (∀ s a, c.stack = s ++ [a] →
      return_from_subroutine c = some { c with pc := a, stack := s }) := by
  constructor
  · intro h
    simp [return_from_subroutine, h]
  · intro s a h
    simp [return_from_subroutine, h]

/-- State whose call stack holds the single return address 0x300. -/
def cpuC8 : CPU := { baseCPU with stack := [0x300] }

/-- C8 witness: the theorem applied to a stack holding 0x300 and to the
empty stack. -/
theorem C8_return_witness :
    return_from_subroutine cpuC8 = some { cpuC8 with pc := 0x300, stack := [] } ∧
    return_from_subroutine baseCPU = none :=
  ⟨(C8_return_from_subroutine cpuC8).2 [] 0x300 rfl,
   (C8_return_from_subroutine baseCPU).1 rfl⟩

/-- State with the signal (9, 1) — the keypad adapter's key 9 press — pending
on the keypad bus. -/
def cpuC10 : CPU := { baseCPU with bus := Bus.new.send 9 1 }

/-- State with register 0 holding key id 9 for the key-query opcodes. -/
def cpuC10b : CPU := { baseCPU with registers := upd baseCPU.registers 0 9 }

/-- State with the signal (8, 1) pending on the keypad bus. -/
def cpuC10c : CPU := { baseCPU with bus := Bus.new.send 8 1 }

/-- C10: the code contradicts the claim for key id 9.  `key_registers` has 9
slots (indices 0..8) and is indexed directly by the key id, so draining the
adapter's (9, 1) signal — and likewise querying Ex9E / ExA1 with register x
holding 9 — indexes out of bounds and panics (modelled as `none`), while id
8 is drained fine; the lookup is not total over all nine spec-valid ids.  -/
theorem C10_key_id_9_faults :
    read_keypad_bus cpuC10 = none ∧
    skip_if_key_pressed cpuC10b 0 = none ∧
    skip_if_key_not_pressed cpuC10b 0 = none ∧
    ((read_keypad_bus cpuC10c).map (fun c => c.keyRegisters 8)) = some 1 := by
  refine ⟨rfl, rfl, rfl, rfl⟩

/-- State with 63 in register 0 (the x coordinate), 0 in register 1 (the y
coordinate), and the sprite byte 0xC0 (two set bits) at memory 0. -/
def cpuC1 : CPU := { baseCPU with
  registers := upd baseCPU.registers 0 63,
  memory := upd baseCPU.memory 0 0xC0 }

/-- C1 counterexample: drawing the 1-row sprite 0xC0 at (63, 0).  Per-axis
wraparound — the claim — demands that the second sprite bit (dx = 1) toggle
column (63 + 1) mod 64 = 0 of the SAME row 0, i.e. cell 0.  The code instead
reduces the linear index 63 + 1 + 0 * 64 = 64 modulo 2048 and toggles cell
64 — column 0 of the NEXT row 1 — leaving cell 0 untouched. -/
theorem C1_counterexample_per_axis_wrap :
    ((draw_sprite cpuC1 0 1 1).map
      (fun c => (c.display 0, c.display 63, c.display 64))) = some (0, 1, 1) ∧
    ((draw_sprite_axis_spec cpuC1 0 1 1).map
      (fun c => (c.display 0, c.display 63, c.display 64))) = some (1, 1, 0) := by
  refine ⟨rfl, rfl⟩

/-- C1 (amended): for every state and sprite height n < 16 with in-bounds
sprite rows, every set sprite bit at row offset dy and column offset dx
XOR-toggles exactly the framebuffer cell at the LINEAR row-major index
(register_x_value + dx + (register_y_value + dy) * 64) mod 2048 — always in
range — and cells hit by no set bit are unchanged.  Wraparound is modulo the
whole 2048-cell plane, not per axis: vertical overflow at an in-range column
stays in its column, but horizontal overflow past column 63 carries into the
following row instead of wrapping within the same row. -/
theorem C1_amended_linear_wraparound (c : CPU) (rx ry n : Nat) (hn : n < 16)
    (hb : n = 0 ∨ c.pointer + n ≤ 4096) :
    ∃ c2, draw_sprite c rx ry n = some c2 ∧
      (∀ dy dx, dy < n → dx < 8 →
        c.memory (c.pointer + dy) &&& (0x80 >>> dx) ≠ 0 →
        (c.registers rx + dx + (c.registers ry + dy) * 64) % 2048 < 2048 ∧
        c2.display ((c.registers rx + dx + (c.registers ry + dy) * 64) % 2048) =
          c.display ((c.registers rx + dx + (c.registers ry + dy) * 64) % 2048) ^^^ 1) ∧
      (∀ i, (∀ dy dx, dy < n → dx < 8 →
          c.memory (c.pointer + dy) &&& (0x80 >>> dx) ≠ 0 →
          (c.registers rx + dx + (c.registers ry + dy) * 64) % 2048 ≠ i) →
        c2.display i = c.display i) := by
  refine ⟨drawResult c rx ry n, draw_sprite_pos c rx ry n hb, ?_, ?_⟩
  · intro dy dx h1 h2 h3
    refine ⟨Nat.mod_lt _ (by norm_num), ?_⟩
    have hp : (dy, dx) ∈ drawPairs n := mem_drawPairs.2 ⟨h1, h2⟩
    have hbp : bitSet c (dy, dx) = true := by
      simpa [bitSet] using h3
    have hi : toggleIdx (c.registers rx) (c.registers ry) (dy, dx) =
        (c.registers rx + dx + (c.registers ry + dy) * 64) % 2048 := by
      simp [toggleIdx, WIDTH, HEIGHT]
    have h := drawResult_display c rx ry n hn
      (toggleIdx (c.registers rx) (c.registers ry) (dy, dx))
    rw [if_pos ⟨(dy, dx), hp, hbp, rfl⟩] at h
    rw [hi] at h
    exact h
  · intro i hmiss
    have hnot : ¬ ∃ p ∈ drawPairs n, bitSet c p = true ∧
        toggleIdx (c.registers rx) (c.registers ry) p = i := by
      rintro ⟨p, hp, hbp, hip⟩
      rcases mem_drawPairs.1 hp with ⟨hp1, hp2⟩
      exact hmiss p.1 p.2 hp1 hp2 (by simpa [bitSet] using hbp)
        (by simpa [toggleIdx, WIDTH, HEIGHT] using hip)
    have h := drawResult_display c rx ry n hn i
    rw [if_neg hnot] at h
    exact h

/-- C1 witness: the amended theorem applied to the concrete corner draw. -/
theorem C1_amended_witness :
    ∃ c2, draw_sprite cpuC1 0 1 1 = some c2 ∧
      (∀ dy dx, dy < 1 → dx < 8 →
        cpuC1.memory (cpuC1.pointer + dy) &&& (0x80 >>> dx) ≠ 0 →
        (cpuC1.registers 0 + dx + (cpuC1.registers 1 + dy) * 64) % 2048 < 2048 ∧
        c2.display ((cpuC1.registers 0 + dx + (cpuC1.registers 1 + dy) * 64) % 2048) =
          cpuC1.display ((cpuC1.registers 0 + dx + (cpuC1.registers 1 + dy) * 64) % 2048)
            ^^^ 1) ∧
      (∀ i, (∀ dy dx, dy < 1 → dx < 8 →
          cpuC1.memory (cpuC1.pointer + dy) &&& (0x80 >>> dx) ≠ 0 →
          (cpuC1.registers 0 + dx + (cpuC1.registers 1 + dy) * 64) % 2048 ≠ i) →
        c2.display i = cpuC1.display i) :=
  C1_amended_linear_wraparound cpuC1 0 1 1 (by decide) (by decide)

/-- C9: drawing the same sprite twice in succession — the coordinate
registers may not be the flag register 15, which the draw itself writes —
restores every framebuffer cell, and after the second draw the flag register
reads 1 exactly when some set sprite bit maps to a cell that was 0 before
the first draw, i.e. exactly when the first draw set at least one sprite
bit. -/
theorem C9_draw_twice_round_trip (c : CPU) (rx ry n : Nat)
    (hrx : rx ≠ 15) (hry : ry ≠ 15) (hn : n < 16)
    (hb : n = 0 ∨ c.pointer + n ≤ 4096) :
    ∃ c1 c2, draw_sprite c rx ry n = some c1 ∧ draw_sprite c1 rx ry n = some c2 ∧
      (∀ i, c2.display i = c.display i) ∧
      (c2.registers 15 = 1 ↔ ∃ dy dx, dy < n ∧ dx < 8 ∧
        c.memory (c.pointer + dy) &&& (0x80 >>> dx) ≠ 0 ∧
        c.display ((c.registers rx + dx + (c.registers ry + dy) * 64) % 2048) = 0) := by
  have hd1 : draw_sprite c rx ry n = some (drawResult c rx ry n) :=
    draw_sprite_pos c rx ry n hb
  have hd2 : draw_sprite (drawResult c rx ry n) rx ry n =
      some (drawResult (drawResult c rx ry n) rx ry n) :=
    draw_sprite_pos _ rx ry n hb
  have hrx1 : (drawResult c rx ry n).registers rx = c.registers rx :=
    drawResult_registers c rx ry n rx hrx
  have hry1 : (drawResult c rx ry n).registers ry = c.registers ry :=
    drawResult_registers c rx ry n ry hry
  refine ⟨_, _, hd1, hd2, ?_, ?_⟩
  · intro i
    have h2 := drawResult_display (drawResult c rx ry n) rx ry n hn i
    simp only [hrx1, hry1, bitSet_drawResult] at h2
    have h1 := drawResult_display c rx ry n hn i
    by_cases hhit : ∃ p ∈ drawPairs n, bitSet c p = true ∧
        toggleIdx (c.registers rx) (c.registers ry) p = i
    · rw [if_pos hhit] at h2 h1
      rw [h2, h1, Nat.xor_assoc]
      simp
    · rw [if_neg hhit] at h2 h1
      rw [h2, h1]
  · have h2 := drawResult_flag (drawResult c rx ry n) rx ry n hn
    simp only [hrx1, hry1, bitSet_drawResult] at h2
    rw [h2]
    constructor
    · rintro ⟨p, hp, hbp, hdp⟩
      have h1 := drawResult_display c rx ry n hn
        (toggleIdx (c.registers rx) (c.registers ry) p)
      rw [if_pos ⟨p, hp, hbp, rfl⟩] at h1
      rw [h1, xor_one_eq_one_iff] at hdp
      rcases mem_drawPairs.1 hp with ⟨hp1, hp2⟩
      refine ⟨p.1, p.2, hp1, hp2, ?_, ?_⟩
      · simpa [bitSet] using hbp
      · simpa [toggleIdx, WIDTH, HEIGHT] using hdp
    · rintro ⟨dy, dx, h1', h2', h3', h4'⟩
      have hp : (dy, dx) ∈ drawPairs n := mem_drawPairs.2 ⟨h1', h2'⟩
      have hbp : bitSet c (dy, dx) = true := by simpa [bitSet] using h3'
      refine ⟨(dy, dx), hp, hbp, ?_⟩
      have hh := drawResult_display c rx ry n hn
        (toggleIdx (c.registers rx) (c.registers ry) (dy, dx))
      rw [if_pos ⟨(dy, dx), hp, hbp, rfl⟩] at hh
      rw [hh, xor_one_eq_one_iff]
      simpa [toggleIdx, WIDTH, HEIGHT] using h4'

/-- State for the C9 witness: sprite byte 0xC0 at memory 0, drawn at the
bottom-right corner (63, 31). -/
def cpuC9w : CPU := { baseCPU with
  registers := upd (upd baseCPU.registers 0 63) 1 31,
  memory := upd baseCPU.memory 0 0xC0 }

/-- C9 witness: the round-trip theorem applied to the concrete corner
draw. -/
theorem C9_round_trip_witness :
    ∃ c1 c2, draw_sprite cpuC9w 0 1 1 = some c1 ∧
      draw_sprite c1 0 1 1 = some c2 ∧
      (∀ i, c2.display i = cpuC9w.display i) ∧
      (c2.registers 15 = 1 ↔ ∃ dy dx, dy < 1 ∧ dx < 8 ∧
        cpuC9w.memory (cpuC9w.pointer + dy) &&& (0x80 >>> dx) ≠ 0 ∧
        cpuC9w.display
          ((cpuC9w.registers 0 + dx + (cpuC9w.registers 1 + dy) * 64) % 2048) = 0) :=
  C9_draw_twice_round_trip cpuC9w 0 1 1 (by decide) (by decide) (by decide) (by decide)

end Chip8
